import Mathlib

/-!
Verification of the recording/transcription lifecycle controller of the
voice_to_text repository (macOS variant `voice_to_text.py`, Windows variant
`voice_to_text_windows.py`, shared `audio_processor.py`).

The Python classes are shallowly embedded as Lean structures and pure
functions; the thread interleavings of the asynchronous transcription
pipeline are embedded as a labelled transition system in namespace `Async`.
-/

namespace VoiceToText

/-- Configuration constant `SAMPLE_RATE = 44100` from `voice_to_text.py`. -/
def SAMPLE_RATE : ℕ := 44100

/-- Configuration constant `MAX_RECORDING_SECONDS = 300` (5-minute failsafe). -/
def MAX_RECORDING_SECONDS : ℕ := 300

/-- Configuration constant `MIN_AUDIO_DURATION = 0.3` seconds.  The Python
float literal `0.3` rounds to a double slightly below 3/10, but the product
`44100 * 0.3` rounds to exactly `13230.0`, so the rational model agrees with
the float computation at the one point where it is used. -/
def MIN_AUDIO_DURATION : ℚ := 3 / 10

/-- Audio buffers are finite sequences of (mono) samples.  The controller
logic never inspects sample values, only buffer lengths, so samples are
modelled as integers. -/
abbrev AudioData := List ℤ

/-- The value `min_samples = int(SAMPLE_RATE * MIN_AUDIO_DURATION)` computed
at the top of `VoiceRecorder._transcribe`. -/
def min_samples : ℕ := (⌊(SAMPLE_RATE : ℚ) * MIN_AUDIO_DURATION⌋).toNat

theorem min_samples_eq : min_samples = 13230 := by
  unfold min_samples SAMPLE_RATE MIN_AUDIO_DURATION
  norm_num
  rfl

/-- The state of a `VoiceRecorder` instance: the fields of `__init__` that
the lifecycle logic reads and writes (the OpenAI client, the stream handle
and the vocabulary prompt are external collaborators). -/
structure VoiceRecorder where
  recording : Bool
  frames : List AudioData
  transcribing : Bool
  result_queue : List (String × Option String)
  pending_audio_queue : List AudioData
deriving Repr, DecidableEq

/-- The per-frame `callback` closure defined inside
`VoiceRecorder.start_recording`: under the lock, if `recording` is set the
frame is appended, the cumulative duration
`len(frames) * frame_count / SAMPLE_RATE` is computed, and if it exceeds
`MAX_RECORDING_SECONDS` the `recording` flag is cleared. -/
def callback (s : VoiceRecorder) (indata : AudioData) (frame_count : ℕ) :
    VoiceRecorder :=
  if s.recording then
    let frames2 := s.frames ++ [indata]
    if ((frames2.length * frame_count : ℚ) / SAMPLE_RATE >
        (MAX_RECORDING_SECONDS : ℚ)) then
      { s with frames := frames2, recording := false }
    else
      { s with frames := frames2 }
  else s

/-- `VoiceRecorder.stop_recording`: returns `None` immediately when the
`recording` flag is clear; otherwise clears the flag, halts the stream
(external side effect), and returns the concatenation of the buffered
frames, or `None` when the frame list is empty. -/
def stop_recording (s : VoiceRecorder) : Option AudioData × VoiceRecorder :=
  if s.recording = false then (none, s)
  else
    let s1 : VoiceRecorder := { s with recording := false }
    if s1.frames ≠ [] then
      (some s1.frames.flatten, { s1 with frames := [] })
    else
      (none, { s1 with frames := [] })

/-- The external transcription collaborator
(`openai.audio.transcriptions.create`): given the audio and the optional
vocabulary prompt it either returns text or raises an error. -/
abbrev Service := AudioData → Option String → Except String String

/-- `VoiceRecorder._transcribe`: returns `None` without touching the
collaborator when the audio is absent or shorter than `min_samples`;
otherwise invokes the collaborator once and returns its text, re-raising
its error.  The second component counts collaborator invocations. -/
def _transcribe (service : Service) (audio_data : Option AudioData)
    (prompt : Option String) : Except String (Option String) × ℕ :=
  match audio_data with
  | none => (Except.ok none, 0)
  | some a =>
    if a.length < min_samples then (Except.ok none, 0)
    else
      match service a prompt with
      | Except.ok t => (Except.ok (some t), 1)
      | Except.error e => (Except.error e, 1)

/-- The `do_transcribe` closure inside `VoiceRecorder.transcribe_async`:
calls `_transcribe` and enqueues exactly one result tuple —
`('success', result)` on normal return, `('error', str(e))` on exception.
The first component is the list of tuples put into `result_queue`, the
second the number of collaborator invocations. -/
def do_transcribe (service : Service) (audio_data : Option AudioData)
    (prompt : Option String) : List (String × Option String) × ℕ :=
  match _transcribe service audio_data prompt with
  | (Except.ok r, c) => ([("success", r)], c)
  | (Except.error e, c) => ([("error", some e)], c)

/-- The synchronous part of `VoiceRecorder.transcribe_async`: when the
`transcribing` flag is set the buffer is appended to `pending_audio_queue`
and no task starts (`false`); otherwise the flag is set and a background
task is spawned (`true`). -/
def transcribe_async (s : VoiceRecorder) (audio_data : AudioData) :
    VoiceRecorder × Bool :=
  if s.transcribing then
    ({ s with pending_audio_queue := s.pending_audio_queue ++ [audio_data] },
      false)
  else
    ({ s with transcribing := true }, true)

/-- Python truthiness of an `Optional[str]`: `None` and the empty string
are falsy. -/
def truthy : Option String → Bool
  | none => false
  | some t => !(t = "")

/-- Observable side effects of `check_results`. -/
inductive Effect where
  | pasted (t : String)
  | sound (k : String)
  | spawned (a : AudioData)
deriving Repr, DecidableEq

/-- `VoiceRecorder.check_results`: pops the head of `result_queue` if any
(else returns `None`); pastes on a truthy success, plays the error cue
otherwise; then dequeues the head of `pending_audio_queue` (if any) and
hands it to `transcribe_async`; finally returns
`status == 'success' and result is not None`. -/
def check_results (s : VoiceRecorder) : Option Bool × VoiceRecorder × List Effect :=
  match s.result_queue with
  | [] => (none, s, [])
  | (status, result) :: rest =>
    let s1 : VoiceRecorder := { s with result_queue := rest }
    let effs1 : List Effect :=
      if status = "success" ∧ truthy result = true then
        [Effect.pasted (result.getD "")]
      else
        [Effect.sound "error"]
    let step2 : VoiceRecorder × List Effect :=
      match s1.pending_audio_queue with
      | [] => (s1, [])
      | a :: ps =>
        let r := transcribe_async { s1 with pending_audio_queue := ps } a
        (r.1, if r.2 then [Effect.spawned a] else [])
    (some ((status = "success") && result.isSome), step2.1, effs1 ++ step2.2)

/-- The hotkey set of the macOS script, abstracted to key identifiers
(`cmd_r` ↦ 0, `alt_r` ↦ 1). -/
def HOTKEY_KEY : List ℕ := [0, 1]

/-- `on_press`: when the key belongs to the hotkey combination it is added
to `current_pressed_keys`; if afterwards every hotkey member is pressed and
neither `recording` nor `transcribing` is set, recording starts.  Returns
the updated pressed-key set and whether `start_recording` was invoked. -/
def on_press (key : ℕ) (pressed : List ℕ) (recording transcribing : Bool) :
    List ℕ × Bool :=
  if key ∈ HOTKEY_KEY then
    let pressed2 := if key ∈ pressed then pressed else pressed ++ [key]
    if ∀ k ∈ HOTKEY_KEY, k ∈ pressed2 then
      (pressed2, !(recording || transcribing))
    else
      (pressed2, false)
  else (pressed, false)

/-- `AudioLevelMonitor.get_quality_assessment` from `audio_processor.py`,
as a function of the stored clipping flag and RMS level in dB. -/
def get_quality_assessment (clipping_detected : Bool) (rms_db : ℚ) :
    String × String :=
  if clipping_detected then
    ("clipped", "Reduce microphone gain - audio is clipping")
  else if rms_db < -30 then
    ("poor", "Audio is very quiet - increase microphone gain or boost")
  else if rms_db < -25 then
    ("fair", "Audio is quiet - consider using --boost 6-8")
  else if -20 ≤ rms_db ∧ rms_db ≤ -14 then
    ("good", "Audio level is optimal for transcription")
  else if -14 < rms_db ∧ rms_db < -10 then
    ("good", "Audio level is good")
  else if rms_db ≥ -10 then
    ("excellent", "Audio level is excellent")
  else
    ("unknown", "Unable to assess audio quality")

/-- The clipboard world seen by `paste_text`: the clipboard content plus
flags describing which external collaborator calls fail (the clipboard
read, the primary keystroke simulation, the fallback simulation). -/
structure PWorld where
  clipboard : String
  readFails : Bool
  simFails : Bool
  fallbackFails : Bool
deriving Repr, DecidableEq

/-- Observable events of one `paste_text` run, in order. -/
inductive PEv where
  | readClip
  | wroteClip (t : String)
  | simOk
  | simFail
  | fallbackOk
  | fallbackFail
  | restored (t : String)
deriving Repr, DecidableEq

/-- `VoiceRecorder.paste_text` (Windows variant; the macOS variant is the
same without the fallback branch): no-op on empty text; otherwise snapshot
the clipboard (a failed read yields the empty snapshot), write the text,
attempt the keystroke simulation and on failure the fallback, and finally
write the snapshot back — the restore is outside every simulation
`try`/`except` and therefore always runs. -/
def paste_text (text : String) (w : PWorld) : PWorld × List PEv :=
  if text = "" then (w, [])
  else
    let old := if w.readFails then "" else w.clipboard
    let w1 : PWorld := { w with clipboard := text }
    let simEvs : List PEv :=
      if w.simFails then
        if w.fallbackFails then [PEv.simFail, PEv.fallbackFail]
        else [PEv.simFail, PEv.fallbackOk]
      else [PEv.simOk]
    let w2 : PWorld := { w1 with clipboard := old }
    (w2, [PEv.readClip, PEv.wroteClip text] ++ simEvs ++ [PEv.restored old])

namespace Async

/-!
A labelled transition system for the asynchronous transcription pipeline.
Buffers are identified by natural numbers; a task's result is tagged with
the id of the buffer it transcribed.  The atomic actions mirror the
statement granularity of the source:

* `submit b` — one call to `transcribe_async` (from `on_release` or from
  inside `check_results`): reads the `transcribing` flag; if set, appends
  `b` to `pending_audio_queue`; otherwise sets the flag and spawns a
  background task for `b`.
* `taskPut` — the in-flight task executes `self.result_queue.put(...)`
  (the `try`/`except` body of `do_transcribe`).
* `taskClear` — the in-flight task executes the `finally` clause
  `self.transcribing = False` and exits.  These are two separate actions
  because they are two separate statements of the worker thread: a poll
  can be interleaved between them.
* `poll` — one call to `check_results` on the poll thread: pops the head
  of the result queue if any (delivering it), then dequeues the head of
  the pending queue if any and hands it to `transcribe_async`.
-/

/-- The id of a buffer plus the phase of its background task:
`false` before `result_queue.put`, `true` after. -/
abbrev Task := ℕ × Bool

/-- Global state of the pipeline.  `tasks` is the list of live background
tasks (the code intends at most one; the model keeps a list so that this
is a provable fact rather than a built-in one). -/
structure St where
  transcribing : Bool
  tasks : List Task
  pending : List ℕ
  results : List ℕ
  delivered : List ℕ
deriving Repr, DecidableEq

/-- The initial state of a freshly constructed `VoiceRecorder`. -/
def init : St := ⟨false, [], [], [], []⟩

/-- The synchronous body of `transcribe_async` for buffer `b`. -/
def transcribeAsync (s : St) (b : ℕ) : St :=
  if s.transcribing then { s with pending := s.pending ++ [b] }
  else { s with transcribing := true, tasks := s.tasks ++ [(b, false)] }

/-- One atomic action of the system. -/
inductive Act where
  | submit (b : ℕ)
  | taskPut
  | taskClear
  | poll
deriving Repr, DecidableEq

/-- The step function: `none` when the action is not enabled. -/
def step (s : St) : Act → Option St
  | .submit b => some (transcribeAsync s b)
  | .taskPut =>
    match s.tasks with
    | (b, false) :: rest =>
      some { s with tasks := (b, true) :: rest, results := s.results ++ [b] }
    | _ => none
  | .taskClear =>
    match s.tasks with
    | (_, true) :: rest => some { s with tasks := rest, transcribing := false }
    | _ => none
  | .poll =>
    match s.results with
    | [] => some s
    | r :: rest =>
      let s1 : St := { s with results := rest, delivered := s.delivered ++ [r] }
      match s1.pending with
      | [] => some s1
      | p :: ps => some (transcribeAsync { s1 with pending := ps } p)

/-- Run a list of actions from a state. -/
def exec (s : St) : List Act → Option St
  | [] => some s
  | a :: tr =>
    match step s a with
    | some s' => exec s' tr
    | none => none

/-- Everything that has been observed of a state's result flow:
the delivered results followed by the still-queued ones. -/
def L (s : St) : List ℕ := s.delivered ++ s.results

/-- Structural invariant of every reachable state: at most one background
task is live, none is live while the `transcribing` flag is clear, and a
task that has already executed its `put` has its id in the result flow. -/
def GInv (s : St) : Prop :=
  s.tasks.length ≤ 1 ∧
  (s.transcribing = false → s.tasks = []) ∧
  (∀ b, (b, true) ∈ s.tasks → b ∈ L s)

theorem ginv_init : GInv init := by
  refine ⟨by simp [init], by simp [init], ?_⟩
  intro b hb
  simp [init] at hb

theorem ginv_transcribeAsync {s : St} (h : GInv s) (b : ℕ) :
    GInv (transcribeAsync s b) := by
  obtain ⟨h1, h2, h3⟩ := h
  unfold transcribeAsync
  by_cases ht : s.transcribing
  · simp only [ht, if_true]
    exact ⟨h1, by simp [ht], fun c hc => h3 c hc⟩
  · simp only [Bool.not_eq_true] at ht
    simp only [ht, if_false]
    have htasks : s.tasks = [] := h2 ht
    refine ⟨by simp [htasks], by simp, ?_⟩
    intro c hc
    simp [htasks] at hc

theorem ginv_of_eq {s s' : St} (h : GInv s)
    (ht : s'.transcribing = s.transcribing) (htk : s'.tasks = s.tasks)
    (hL : ∀ c, c ∈ L s → c ∈ L s') : GInv s' := by
  obtain ⟨h1, h2, h3⟩ := h
  refine ⟨by rw [htk]; exact h1, by rw [ht, htk]; exact h2, ?_⟩
  intro c hc
  rw [htk] at hc
  exact hL c (h3 c hc)

theorem ginv_step {s s' : St} {a : Act} (h : GInv s) (hs : step s a = some s') :
    GInv s' := by
  obtain ⟨h1, h2, h3⟩ := h
  cases a with
  | submit b =>
    simp only [step, Option.some.injEq] at hs
    subst hs
    exact ginv_transcribeAsync ⟨h1, h2, h3⟩ b
  | taskPut =>
    simp only [step] at hs
    match htasks : s.tasks with
    | [] => rw [htasks] at hs; cases hs
    | (b, true) :: rest => rw [htasks] at hs; cases hs
    | (b, false) :: rest =>
      rw [htasks] at hs
      simp only [Option.some.injEq] at hs
      subst hs
      rw [htasks] at h1 h2 h3
      refine ⟨by simpa using h1, ?_, ?_⟩
      · intro hf
        exact absurd (h2 hf) (by simp)
      · intro c hc
        simp only [List.mem_cons] at hc
        rcases hc with hc | hc
        · cases hc
          simp [L]
        · have := h3 c (by simp [hc])
          simp only [L, List.mem_append] at this ⊢
          rcases this with h | h
          · exact Or.inl h
          · exact Or.inr (by simp [h])
  | taskClear =>
    simp only [step] at hs
    match htasks : s.tasks with
    | [] => rw [htasks] at hs; cases hs
    | (b, false) :: rest => rw [htasks] at hs; cases hs
    | (b, true) :: rest =>
      rw [htasks] at hs
      simp only [Option.some.injEq] at hs
      subst hs
      rw [htasks] at h1 h3
      have hrest : rest = [] := by
        simp only [List.length_cons] at h1
        exact List.length_eq_zero.mp (by omega)
      subst hrest
      exact ⟨by simp, fun _ => rfl, by intro c hc; simp at hc⟩
  | poll =>
    simp only [step] at hs
    match hres : s.results with
    | [] =>
      rw [hres] at hs
      simp only [Option.some.injEq] at hs
      subst hs
      exact ⟨h1, h2, h3⟩
    | r :: rest =>
      rw [hres] at hs
      simp only at hs
      match hpend : s.pending with
      | [] =>
        rw [hpend] at hs
        simp only [Option.some.injEq] at hs
        subst hs
        refine ginv_of_eq ⟨h1, h2, h3⟩ rfl rfl ?_
        intro c hc
        simp only [L, hres, List.mem_append, List.mem_cons] at hc ⊢
        tauto
      | p :: ps =>
        rw [hpend] at hs
        simp only [Option.some.injEq] at hs
        subst hs
        have hmid : GInv { s with pending := ps, results := rest, delivered := s.delivered ++ [r] } := by
          refine ginv_of_eq ⟨h1, h2, h3⟩ rfl rfl ?_
          intro c hc
          simp only [L, hres, List.mem_append, List.mem_cons] at hc ⊢
          tauto
        exact ginv_transcribeAsync hmid p

theorem ginv_exec {s s' : St} {tr : List Act} (h : GInv s)
    (hs : exec s tr = some s') : GInv s' := by
  induction tr generalizing s with
  | nil => simp only [exec, Option.some.injEq] at hs; subst hs; exact h
  | cons a tr ih =>
    simp only [exec] at hs
    match hstep : step s a with
    | none => rw [hstep] at hs; cases hs
    | some s1 =>
      rw [hstep] at hs
      exact ih (ginv_step h hstep) hs

theorem transcribeAsync_of_true {s : St} (h : s.transcribing = true) (b : ℕ) :
    transcribeAsync s b = { s with pending := s.pending ++ [b] } := by
  simp [transcribeAsync, h]

theorem transcribeAsync_of_false {s : St} (h : s.transcribing = false) (b : ℕ) :
    transcribeAsync s b = { s with transcribing := true, tasks := s.tasks ++ [(b, false)] } := by
  simp [transcribeAsync, h]

/-!
Tracking one pair of buffers through the pipeline.  `b2` was submitted
while `b1`'s task was in flight.  `PhaseA1`: `b2` waits in the pending
queue.  `PhaseA2`: `b2`'s own task is live but has not yet enqueued its
result.  `PhaseB`: `b2`'s result is in the result flow, behind `b1`'s.
-/

def PhaseA1 (b1 b2 : ℕ) (s : St) : Prop :=
  s.pending.count b2 = 1 ∧ (∀ ph, (b2, ph) ∉ s.tasks) ∧ (L s).count b2 = 0 ∧
  (b1 ∈ L s ∨ (b1, false) ∈ s.tasks)

def PhaseA2 (b1 b2 : ℕ) (s : St) : Prop :=
  s.tasks = [(b2, false)] ∧ s.pending.count b2 = 0 ∧ (L s).count b2 = 0 ∧
  b1 ∈ L s

def PhaseB (b1 b2 : ℕ) (s : St) : Prop :=
  List.Sublist [b1, b2] (L s) ∧ (L s).count b2 = 1 ∧ b2 ∉ s.pending ∧
  (b2, false) ∉ s.tasks

def PairInv (b1 b2 : ℕ) (s : St) : Prop :=
  PhaseA1 b1 b2 s ∨ PhaseA2 b1 b2 s ∨ PhaseB b1 b2 s

theorem pair_submit {b1 b2 b : ℕ} {s : St} (hg : GInv s)
    (hp : PairInv b1 b2 s) (hb : b ≠ b2) :
    PairInv b1 b2 (transcribeAsync s b) := by
  cases htr : s.transcribing with
  | true =>
    rw [transcribeAsync_of_true htr]
    rcases hp with ⟨c1, c2, c3, c4⟩ | ⟨c1, c2, c3, c4⟩ | ⟨c1, c2, c3, c4⟩
    · refine Or.inl ⟨?_, c2, c3, c4⟩
      simp [List.count_append, c1, List.count_singleton, hb, Ne.symm hb]
    · refine Or.inr (Or.inl ⟨c1, ?_, c3, c4⟩)
      simp [List.count_append, c2, List.count_singleton, hb, Ne.symm hb]
    · refine Or.inr (Or.inr ⟨c1, c2, ?_, c4⟩)
      simp only [List.mem_append, List.mem_singleton]
      rintro (h | h)
      · exact c3 h
      · exact hb h.symm
  | false =>
    have htasks : s.tasks = [] := hg.2.1 htr
    rw [transcribeAsync_of_false htr]
    rcases hp with ⟨c1, c2, c3, c4⟩ | ⟨c1, c2, c3, c4⟩ | ⟨c1, c2, c3, c4⟩
    · refine Or.inl ⟨c1, ?_, c3, ?_⟩
      · intro ph hmem
        simp only [htasks, List.nil_append, List.mem_singleton] at hmem
        exact hb (congrArg Prod.fst hmem).symm
      · rcases c4 with h | h
        · exact Or.inl h
        · rw [htasks] at h; simp at h
    · rw [htasks] at c1; simp at c1
    · refine Or.inr (Or.inr ⟨c1, c2, c3, ?_⟩)
      intro hmem
      simp only [htasks, List.nil_append, List.mem_singleton] at hmem
      exact hb (congrArg Prod.fst hmem).symm

theorem pair_step {b1 b2 : ℕ} {s s' : St} {a : Act} (hg : GInv s)
    (hp : PairInv b1 b2 s) (hs : step s a = some s')
    (hna : a ≠ Act.submit b2) (hne : b1 ≠ b2) : PairInv b1 b2 s' := by
  cases a with
  | submit b =>
    have hb : b ≠ b2 := fun h => hna (by rw [h])
    simp only [step, Option.some.injEq] at hs
    subst hs
    exact pair_submit hg hp hb
  | taskPut =>
    simp only [step] at hs
    match htasks : s.tasks with
    | [] => rw [htasks] at hs; cases hs
    | (c, true) :: rest => rw [htasks] at hs; cases hs
    | (c, false) :: rest =>
      rw [htasks] at hs
      simp only [Option.some.injEq] at hs
      subst hs
      have hLnew : L { s with tasks := (c, true) :: rest, results := s.results ++ [c] } = L s ++ [c] := by
        simp [L]
      rcases hp with ⟨c1, c2, c3, c4⟩ | ⟨c1, c2, c3, c4⟩ | ⟨c1, c2, c3, c4⟩
      · -- b2 waits in pending; the running task is someone else's
        have hcb2 : c ≠ b2 := by
          intro h
          exact c2 false (by rw [htasks, h]; exact List.mem_cons_self _ _)
        refine Or.inl ⟨c1, ?_, ?_, ?_⟩
        · intro ph hmem
          simp only [List.mem_cons] at hmem
          rcases hmem with h | h
          · exact hcb2 (congrArg Prod.fst h).symm
          · exact c2 ph (by rw [htasks]; exact List.mem_cons_of_mem _ h)
        · rw [hLnew]
          simp [List.count_append, c3, List.count_singleton, hcb2, Ne.symm hcb2]
        · rcases c4 with h | h
          · exact Or.inl (by rw [hLnew]; exact List.mem_append_left _ h)
          · rw [htasks] at h
            simp only [List.mem_cons] at h
            rcases h with h | h
            · -- b1's own task just put its result
              have : b1 = c := (congrArg Prod.fst h)
              exact Or.inl (by rw [hLnew, this]; simp)
            · exact Or.inr (List.mem_cons_of_mem _ h)
      · -- b2's task just put its result: move to phase B
        rw [htasks] at c1
        cases c1
        refine Or.inr (Or.inr ⟨?_, ?_, ?_, ?_⟩)
        · rw [hLnew]
          exact List.Sublist.append (List.singleton_sublist.mpr c4)
            (List.Sublist.refl _)
        · rw [hLnew]
          simp [List.count_append, c3]
        · exact List.count_eq_zero.mp c2
        · simp
      · -- already in phase B; the running task is someone else's
        have hcb2 : c ≠ b2 := by
          intro h
          exact c4 (by rw [htasks, h]; exact List.mem_cons_self _ _)
        refine Or.inr (Or.inr ⟨?_, ?_, c3, ?_⟩)
        · rw [hLnew]
          exact c1.trans (List.sublist_append_left _ _)
        · rw [hLnew]
          simp [List.count_append, c2, List.count_singleton, hcb2, Ne.symm hcb2]
        · intro hmem
          simp only [List.mem_cons] at hmem
          rcases hmem with h | h
          · cases h
          · exact c4 (by rw [htasks]; exact List.mem_cons_of_mem _ h)
  | taskClear =>
    simp only [step] at hs
    match htasks : s.tasks with
    | [] => rw [htasks] at hs; cases hs
    | (c, false) :: rest => rw [htasks] at hs; cases hs
    | (c, true) :: rest =>
      rw [htasks] at hs
      simp only [Option.some.injEq] at hs
      subst hs
      rcases hp with ⟨c1, c2, c3, c4⟩ | ⟨c1, c2, c3, c4⟩ | ⟨c1, c2, c3, c4⟩
      · refine Or.inl ⟨c1, ?_, c3, ?_⟩
        · intro ph hmem
          exact c2 ph (by rw [htasks]; exact List.mem_cons_of_mem _ hmem)
        · rcases c4 with h | h
          · exact Or.inl h
          · rw [htasks] at h
            simp only [List.mem_cons] at h
            rcases h with h | h
            · cases h
            · exact Or.inr h
      · rw [htasks] at c1
        cases c1
      · refine Or.inr (Or.inr ⟨c1, c2, c3, ?_⟩)
        intro hmem
        exact c4 (by rw [htasks]; exact List.mem_cons_of_mem _ hmem)
  | poll =>
    simp only [step] at hs
    match hres : s.results with
    | [] =>
      rw [hres] at hs
      simp only [Option.some.injEq] at hs
      subst hs
      exact hp
    | r :: rest =>
      rw [hres] at hs
      simp only at hs
      have hLmid : ∀ ps2 : List ℕ, L { s with pending := ps2, results := rest, delivered := s.delivered ++ [r] } = L s := by
        intro ps2
        simp [L, hres]
      match hpend : s.pending with
      | [] =>
        rw [hpend] at hs
        simp only [Option.some.injEq] at hs
        subst hs
        rcases hp with ⟨c1, c2, c3, c4⟩ | ⟨c1, c2, c3, c4⟩ | ⟨c1, c2, c3, c4⟩
        · refine Or.inl ⟨by simpa [hpend] using c1, c2, ?_, ?_⟩
          · rw [hLmid]
            exact c3
          · rcases c4 with h | h
            · exact Or.inl (by rw [hLmid]; exact h)
            · exact Or.inr h
        · refine Or.inr (Or.inl ⟨c1, by simpa [hpend] using c2, ?_, ?_⟩)
          · rw [hLmid]
            exact c3
          · rw [hLmid]
            exact c4
        · refine Or.inr (Or.inr ⟨?_, ?_, by simp [hpend], c4⟩)
          · rw [hLmid]
            exact c1
          · rw [hLmid]
            exact c2
      | p :: ps =>
        rw [hpend] at hs
        simp only [Option.some.injEq] at hs
        subst hs
        have hgmid : GInv { s with pending := ps, results := rest, delivered := s.delivered ++ [r] } := by
          refine ginv_of_eq hg rfl rfl ?_
          intro c hc
          simp only [L, hres, List.mem_append, List.mem_cons] at hc ⊢
          tauto
        have hpmid : (p ≠ b2 ∧ PairInv b1 b2 { s with pending := ps, results := rest, delivered := s.delivered ++ [r] }) ∨ (p = b2 ∧ PhaseA1 b1 b2 s) := by
          rcases hp with ⟨c1, c2, c3, c4⟩ | ⟨c1, c2, c3, c4⟩ | ⟨c1, c2, c3, c4⟩
          · by_cases hpb : p = b2
            · exact Or.inr ⟨hpb, c1, c2, c3, c4⟩
            · refine Or.inl ⟨hpb, Or.inl ⟨?_, c2, by rw [hLmid]; exact c3, ?_⟩⟩
              · rw [hpend] at c1
                simpa [List.count_cons, hpb, Ne.symm hpb] using c1
              · rcases c4 with h | h
                · exact Or.inl (by rw [hLmid]; exact h)
                · exact Or.inr h
          · have hpb : p ≠ b2 := by
              intro h
              rw [hpend, h] at c2
              simp [List.count_cons] at c2
            refine Or.inl ⟨hpb, Or.inr (Or.inl ⟨c1, ?_, by rw [hLmid]; exact c3,
              by rw [hLmid]; exact c4⟩)⟩
            rw [hpend] at c2
            simpa [List.count_cons, hpb, Ne.symm hpb] using c2
          · have hpb : p ≠ b2 := by
              intro h
              exact c3 (by rw [hpend, h]; exact List.mem_cons_self _ _)
            refine Or.inl ⟨hpb, Or.inr (Or.inr ⟨by rw [hLmid]; exact c1,
              by rw [hLmid]; exact c2, ?_, c4⟩)⟩
            intro hmem
            exact c3 (by rw [hpend]; exact List.mem_cons_of_mem _ hmem)
        rcases hpmid with ⟨hpb, hpmid⟩ | ⟨hpb, c1, c2, c3, c4⟩
        · exact pair_submit hgmid hpmid hpb
        · -- the dequeued buffer is b2 itself: it leaves the pending queue
          subst hpb
          cases htr : s.transcribing with
          | true =>
            rw [transcribeAsync_of_true rfl]
            refine Or.inl ⟨?_, c2, by simpa [L, hres] using c3, ?_⟩
            · rw [hpend] at c1
              simp only [List.count_cons_self] at c1
              simp only [List.count_append, List.count_cons, List.count_nil]
              simp
              omega
            · rcases c4 with h | h
              · exact Or.inl (by simpa [L, hres] using h)
              · exact Or.inr h
          | false =>
            have htasks : s.tasks = [] := hg.2.1 htr
            rw [transcribeAsync_of_false rfl]
            refine Or.inr (Or.inl ⟨by simp [htasks], ?_, by simpa [L, hres] using c3, ?_⟩)
            · rw [hpend] at c1
              simp only [List.count_cons_self] at c1
              simp
              omega
            · rcases c4 with h | h
              · simpa [L, hres] using h
              · rw [htasks] at h
                simp at h

theorem pair_exec {b1 b2 : ℕ} {s s' : St} {tr : List Act} (hg : GInv s)
    (hp : PairInv b1 b2 s) (hs : exec s tr = some s')
    (hna : Act.submit b2 ∉ tr) (hne : b1 ≠ b2) : PairInv b1 b2 s' := by
  induction tr generalizing s with
  | nil => simp only [exec, Option.some.injEq] at hs; subst hs; exact hp
  | cons a tr ih =>
    simp only [exec] at hs
    match hstep : step s a with
    | none => rw [hstep] at hs; cases hs
    | some s1 =>
      rw [hstep] at hs
      have hna1 : a ≠ Act.submit b2 := by
        intro h
        exact hna (by rw [h]; exact List.mem_cons_self _ _)
      exact ih (ginv_step hg hstep)
        (pair_step hg hp hstep hna1 hne) hs
        (fun h => hna (List.mem_cons_of_mem _ h))

theorem pair_establish {b1 b2 : ℕ} {ph : Bool} {s : St} (hg : GInv s)
    (htask : s.tasks = [(b1, ph)]) (hne : b1 ≠ b2)
    (hfresh1 : b2 ∉ s.pending) (hfresh2 : (L s).count b2 = 0) :
    PairInv b1 b2 (transcribeAsync s b2) := by
  have htr : s.transcribing = true := by
    cases htr : s.transcribing with
    | true => rfl
    | false =>
      rw [hg.2.1 htr] at htask
      cases htask
  rw [transcribeAsync_of_true htr]
  refine Or.inl ⟨?_, ?_, hfresh2, ?_⟩
  · simp [List.count_append, List.count_eq_zero.mpr hfresh1]
  · intro ph2 hmem
    rw [htask] at hmem
    simp only [List.mem_singleton] at hmem
    exact hne (congrArg Prod.fst hmem).symm
  · cases ph with
    | false => exact Or.inr (by rw [htask]; simp)
    | true => exact Or.inl (hg.2.2 b1 (by rw [htask]; simp))

theorem sublist_pair_split {b1 b2 : ℕ} {d r : List ℕ}
    (h : List.Sublist [b1, b2] (d ++ r)) (hb2 : b2 ∉ r) :
    List.Sublist [b1, b2] d := by
  rw [List.sublist_append_iff] at h
  obtain ⟨u, v, huv, hu, hv⟩ := h
  rcases u with _ | ⟨x, u2⟩
  · simp only [List.nil_append] at huv
    subst huv
    exact absurd (hv.subset (by simp)) hb2
  · rcases u2 with _ | ⟨y, u3⟩
    · simp only [List.cons_append, List.nil_append, List.cons.injEq] at huv
      obtain ⟨hx, hvv⟩ := huv
      subst hx hvv
      exact absurd (hv.subset (by simp)) hb2
    · simp only [List.cons_append, List.cons.injEq] at huv
      obtain ⟨hx, hy, huv3⟩ := huv
      have hu3 : u3 = [] ∧ v = [] := by
        constructor
        · cases u3 with
          | nil => rfl
          | cons z zs => simp at huv3
        · rcases List.append_eq_nil.mp huv3.symm with ⟨h1, h2⟩
          exact h2
      obtain ⟨h1, h2⟩ := hu3
      subst h1 hx hy
      simpa using hu

theorem pair_extract {b1 b2 : ℕ} {s : St} (hp : PairInv b1 b2 s)
    (hdel : b2 ∈ s.delivered) : List.Sublist [b1, b2] s.delivered := by
  have hmemL : b2 ∈ L s := by
    simp only [L, List.mem_append]
    exact Or.inl hdel
  rcases hp with ⟨c1, c2, c3, c4⟩ | ⟨c1, c2, c3, c4⟩ | ⟨c1, c2, c3, c4⟩
  · exact absurd hmemL (List.count_eq_zero.mp c3)
  · exact absurd hmemL (List.count_eq_zero.mp c3)
  · have hnr : b2 ∉ s.results := by
      intro hr
      have h1 : 0 < s.delivered.count b2 := List.count_pos_iff.mpr hdel
      have h2 : 0 < s.results.count b2 := List.count_pos_iff.mpr hr
      rw [L, List.count_append] at c2
      omega
    exact sublist_pair_split c1 hnr

end Async

/-!
Claim theorems.
-/

/-- C1: along every execution of the transcription pipeline, at most one
background transcription task is in flight; a `transcribe_async` call with
the `transcribing` flag clear starts exactly one background task and sets
the flag, while a call with the flag set appends the buffer to the FIFO
pending queue instead (starting no second task and dropping no buffer). -/
theorem claim_single_inflight (tr : List Async.Act) (s : Async.St)
    (hs : Async.exec Async.init tr = some s) :
    s.tasks.length ≤ 1 ∧
    (∀ b, s.transcribing = true →
      Async.step s (Async.Act.submit b) =
        some { s with pending := s.pending ++ [b] }) ∧
    (∀ b, s.transcribing = false →
      Async.step s (Async.Act.submit b) =
        some { s with transcribing := true, tasks := [(b, false)] }) := by
  have hg := Async.ginv_exec Async.ginv_init hs
  refine ⟨hg.1, ?_, ?_⟩
  · intro b ht
    simp [Async.step, Async.transcribeAsync_of_true ht]
  · intro b ht
    have htasks := hg.2.1 ht
    simp [Async.step, Async.transcribeAsync_of_false ht, htasks]

/-- C1 witness: a concrete execution reaching a state with one live task. -/
theorem claim_single_inflight_witness :
    Async.exec Async.init [Async.Act.submit 5] =
      some ⟨true, [(5, false)], [], [], []⟩ ∧
    (⟨true, [(5, false)], [], [], []⟩ : Async.St).tasks.length ≤ 1 := by
  constructor
  · rfl
  · exact (claim_single_inflight [Async.Act.submit 5] _ rfl).1

/-- C2 counterexample: a valid interleaving of the source's atomic actions
in which buffers are submitted in the order 1, 2, 3, 4 but results are
delivered in the order 1, 4, 3, 2.  The poll after the first `taskPut`
lands before the task's `finally` clause clears the `transcribing` flag,
so `check_results` re-queues buffer 2 to the back of the pending queue;
buffer 4, submitted later while nothing was in flight, is then transcribed
and delivered first.  This refutes the claim that results are delivered in
submission order for all interleavings of submissions and polls. -/
theorem claim_fifo_counterexample :
    Async.exec Async.init
      [Async.Act.submit 1, Async.Act.submit 2, Async.Act.submit 3,
       Async.Act.taskPut, Async.Act.poll, Async.Act.taskClear,
       Async.Act.submit 4, Async.Act.taskPut, Async.Act.taskClear,
       Async.Act.poll, Async.Act.taskPut, Async.Act.taskClear,
       Async.Act.poll, Async.Act.taskPut, Async.Act.taskClear,
       Async.Act.poll] = some ⟨false, [], [], [], [1, 4, 3, 2]⟩ := by
  rfl

/-- C2 (amended): the pairwise guarantee does hold — if buffer `b2` is
submitted while buffer `b1`'s task is in flight then, in every continuation
that delivers `b2`, `b1` is delivered strictly earlier (`[b1, b2]` is a
sublist of the delivery order) — but the global submission-order guarantee
of the original claim fails (see the counterexample). -/
theorem claim_fifo_pairwise (tr1 tr2 : List Async.Act) (b1 b2 : ℕ)
    (ph : Bool) (s1 s2 : Async.St)
    (h1 : Async.exec Async.init tr1 = some s1)
    (htask : s1.tasks = [(b1, ph)])
    (hne : b1 ≠ b2)
    (hf1 : b2 ∉ s1.pending) (hf2 : b2 ∉ s1.delivered) (hf3 : b2 ∉ s1.results)
    (hno : Async.Act.submit b2 ∉ tr2)
    (h2 : Async.exec s1 (Async.Act.submit b2 :: tr2) = some s2)
    (hdel : b2 ∈ s2.delivered) :
    List.Sublist [b1, b2] s2.delivered := by
  have hg1 := Async.ginv_exec Async.ginv_init h1
  have hcount : (Async.L s1).count b2 = 0 := by
    rw [Async.L, List.count_append, List.count_eq_zero.mpr hf2,
      List.count_eq_zero.mpr hf3]
  simp only [Async.exec, Async.step] at h2
  have hpair0 := Async.pair_establish hg1 htask hne hf1 hcount
  have hg2 := Async.ginv_transcribeAsync hg1 b2
  exact Async.pair_extract (Async.pair_exec hg2 hpair0 h2 hno hne) hdel

/-- C2 witness: buffer 7 submitted while buffer 5 is in flight is delivered
after buffer 5. -/
theorem claim_fifo_pairwise_witness :
    List.Sublist [5, 7] (⟨false, [], [], [], [5, 7]⟩ : Async.St).delivered := by
  exact claim_fifo_pairwise [Async.Act.submit 5]
    [Async.Act.taskPut, Async.Act.taskClear, Async.Act.poll,
     Async.Act.taskPut, Async.Act.taskClear, Async.Act.poll]
    5 7 false ⟨true, [(5, false)], [], [], []⟩ ⟨false, [], [], [], [5, 7]⟩
    rfl rfl (by decide) (by decide) (by decide) (by decide) (by decide)
    rfl (by decide)

/-- C3 counterexample: the background task for buffer 1 completes fully
(`taskPut` then `taskClear`) while buffer 2 waits in the pending queue,
yet no new background task is started (`tasks = []`) and the completed
result has not been delivered (`delivered = []`, `results = [1]`).  The
code dequeues the next buffer only inside `check_results`, after a result
is retrieved — not in the task's completion path — so the queue does not
keep draining when the caller never polls. -/
theorem claim_drain_counterexample :
    Async.exec Async.init
      [Async.Act.submit 1, Async.Act.submit 2, Async.Act.taskPut,
       Async.Act.taskClear] = some ⟨false, [], [2], [1], []⟩ := by
  rfl

/-- C3 (amended): task completion (`taskClear`, the `finally` clause)
clears the in-flight state and leaves the pending queue untouched; the
next queued buffer is dequeued and handed to `transcribe_async` only by
`check_results` (`poll`), and only after it has retrieved a completed
result from the result queue. -/
theorem claim_drain_on_poll (s : Async.St) :
    (∀ b rest, s.tasks = (b, true) :: rest →
      Async.step s Async.Act.taskClear =
        some { s with tasks := rest, transcribing := false }) ∧
    (s.results = [] → Async.step s Async.Act.poll = some s) ∧
    (∀ r rs, s.results = r :: rs → s.pending = [] →
      Async.step s Async.Act.poll =
        some { s with results := rs, delivered := s.delivered ++ [r] }) ∧
    (∀ r rs p ps, s.results = r :: rs → s.pending = p :: ps →
      Async.step s Async.Act.poll =
        some (Async.transcribeAsync
          { s with results := rs, delivered := s.delivered ++ [r], pending := ps } p)) := by
  refine ⟨?_, ?_, ?_, ?_⟩
  · intro b rest h
    simp [Async.step, h]
  · intro h
    simp [Async.step, h]
  · intro r rs h1 h2
    simp [Async.step, h1, h2]
  · intro r rs p ps h1 h2
    simp [Async.step, h1, h2]

/-- C3 witness: a completion step with a non-empty pending queue leaves it
untouched, and a poll that retrieves a result dequeues the next buffer. -/
theorem claim_drain_on_poll_witness :
    Async.step ⟨true, [(1, true)], [2], [3], []⟩ Async.Act.taskClear =
      some ⟨false, [], [2], [3], []⟩ ∧
    Async.step ⟨false, [], [2], [3], []⟩ Async.Act.poll =
      some (Async.transcribeAsync ⟨false, [], [], [], [3]⟩ 2) := by
  constructor
  · exact (claim_drain_on_poll _).1 1 [] rfl
  · exact (claim_drain_on_poll _).2.2.2 3 [] 2 [] rfl rfl

/-- C4 counterexample: the second hotkey member is pressed so the whole
combination is held, no recording is active, but a previous transcription
is still in flight (`transcribing = true`) — and `on_press` does not start
a recording, because the guard `recorder.recording or recorder.transcribing`
includes the `transcribing` flag. -/
theorem claim_press_counterexample :
    (on_press 1 [0] false true).2 = false ∧
    (on_press 1 [0] false true).1 = [0, 1] := by
  decide

/-- C4 (amended): `on_press` invokes `start_recording` exactly when the key
belongs to the hotkey set, the whole hotkey set is held afterwards, and
both the `recording` and the `transcribing` flags are clear — a press
arriving while a previous transcription is in flight is ignored. -/
theorem claim_press_guard (key : ℕ) (pressed : List ℕ)
    (recording transcribing : Bool) :
    (on_press key pressed recording transcribing).2 = true ↔
      (key ∈ HOTKEY_KEY ∧
        (∀ k ∈ HOTKEY_KEY, k ∈ (on_press key pressed recording transcribing).1) ∧
        recording = false ∧ transcribing = false) := by
  by_cases h1 : key ∈ HOTKEY_KEY
  · by_cases h2 : ∀ k ∈ HOTKEY_KEY, k ∈ (if key ∈ pressed then pressed else pressed ++ [key])
    · have hres : on_press key pressed recording transcribing =
          ((if key ∈ pressed then pressed else pressed ++ [key]),
            !(recording || transcribing)) := by
        simp only [on_press, if_pos h1, if_pos h2]
      rw [hres]
      cases recording <;> cases transcribing <;> simp [h1, h2] <;> exact h2
    · have hres : on_press key pressed recording transcribing =
          ((if key ∈ pressed then pressed else pressed ++ [key]), false) := by
        simp only [on_press, if_pos h1, if_neg h2]
      rw [hres]
      simp [h2]
  · simp [on_press, h1]

/-- C4 witness: with both flags clear and the full combination held, the
press does start a recording. -/
theorem claim_press_guard_witness :
    (on_press 1 [0] false false).2 = true := by
  exact (claim_press_guard 1 [0] false false).mpr (by decide)

/-- C5 counterexample: a recorder with one buffered frame holding a single
sample (far below the 0.3 s = 13230-sample threshold) — `stop_recording`
returns the audio buffer, not `None`; the minimum-duration check is not
part of `stop_recording`. -/
theorem claim_stop_short_counterexample :
    (stop_recording ⟨true, [[0]], false, [], []⟩).1 = some [0] ∧
    (1 : ℕ) < min_samples := by
  refine ⟨rfl, ?_⟩
  rw [min_samples_eq]
  omega

/-- C5 (amended): `stop_recording` returns `None` exactly when no recording
is active or the frame buffer is empty; otherwise it clears the flag,
resets the buffer and returns the concatenated audio regardless of its
duration (the 0.3 s minimum-duration check happens later, in
`_transcribe`). -/
theorem claim_stop_recording_cases (s : VoiceRecorder) :
    (s.recording = false → stop_recording s = (none, s)) ∧
    (s.recording = true → s.frames = [] →
      stop_recording s = (none, { s with recording := false, frames := [] })) ∧
    (s.recording = true → s.frames ≠ [] →
      stop_recording s =
        (some s.frames.flatten, { s with recording := false, frames := [] })) := by
  refine ⟨?_, ?_, ?_⟩
  · intro h
    simp [stop_recording, h]
  · intro h hf
    simp [stop_recording, h, hf]
  · intro h hf
    simp [stop_recording, h, hf]

/-- C5 witness: stopping an active recording with two buffered frames
returns their concatenation. -/
theorem claim_stop_recording_cases_witness :
    stop_recording ⟨true, [[1], [2]], false, [], []⟩ =
      (some [1, 2], ⟨false, [], false, [], []⟩) := by
  have h := (claim_stop_recording_cases ⟨true, [[1], [2]], false, [], []⟩).2.2
    rfl (by decide)
  rw [h]
  rfl

/-- C6: a buffer shorter than `min_samples = int(SAMPLE_RATE * 0.3)` yields
`('success', None)` (`Empty`) with zero collaborator invocations; for any
longer buffer the collaborator is invoked exactly once, a failure is
reported as exactly one `('error', reason)` tuple (no retry), and a
success as exactly one `('success', text)` tuple. -/
theorem claim_short_audio_and_failure (service : Service) (a : AudioData)
    (prompt : Option String) :
    (a.length < min_samples →
      do_transcribe service (some a) prompt = ([("success", none)], 0)) ∧
    (min_samples ≤ a.length → ∀ e, service a prompt = Except.error e →
      do_transcribe service (some a) prompt = ([("error", some e)], 1)) ∧
    (min_samples ≤ a.length → ∀ t, service a prompt = Except.ok t →
      do_transcribe service (some a) prompt = ([("success", some t)], 1)) := by
  refine ⟨?_, ?_, ?_⟩
  · intro h
    simp [do_transcribe, _transcribe, h]
  · intro h e hsvc
    simp [do_transcribe, _transcribe, Nat.not_lt.mpr h, hsvc]
  · intro h t hsvc
    simp [do_transcribe, _transcribe, Nat.not_lt.mpr h, hsvc]

/-- C6 witness: a one-sample buffer is reported as `Empty` and the (always
failing) collaborator is never invoked. -/
theorem claim_short_audio_and_failure_witness :
    do_transcribe (fun _ _ => Except.error "boom") (some [0]) none =
      ([("success", none)], 0) := by
  exact (claim_short_audio_and_failure (fun _ _ => Except.error "boom") [0] none).1
    (by simp [min_samples_eq])

/-- C7 counterexample: one delivered frame of 13230001 samples pushes the
cumulative duration over 300 s, so the failsafe clears the `recording`
flag with the frame buffered; but a later `stop_recording` then returns
`None` and leaves the state untouched — the buffered audio is not
returned, contrary to the claim. -/
theorem claim_failsafe_counterexample :
    (callback ⟨true, [], false, [], []⟩ [1] 13230001).recording = false ∧
    (callback ⟨true, [], false, [], []⟩ [1] 13230001).frames = [[1]] ∧
    stop_recording (callback ⟨true, [], false, [], []⟩ [1] 13230001) =
      (none, callback ⟨true, [], false, [], []⟩ [1] 13230001) := by
  have h : callback ⟨true, [], false, [], []⟩ [1] 13230001 =
      ⟨false, [[1]], false, [], []⟩ := by
    unfold callback
    norm_num [SAMPLE_RATE, MAX_RECORDING_SECONDS]
  rw [h]
  exact ⟨rfl, rfl, rfl⟩

/-- C7 (amended): when a delivered frame pushes the duration computed in
the callback over `MAX_RECORDING_SECONDS`, the frame is still appended and
the `recording` flag is cleared; once the flag is clear the callback
ignores every subsequently delivered frame — but a later `stop_recording`
returns `None` and does not return the buffered audio, because it returns
`None` whenever the flag is already clear. -/
theorem claim_failsafe_behavior (s : VoiceRecorder) (indata : AudioData)
    (frame_count : ℕ) :
    (s.recording = true →
      ((((s.frames ++ [indata]).length * frame_count : ℚ) / SAMPLE_RATE >
          (MAX_RECORDING_SECONDS : ℚ)) →
        callback s indata frame_count =
          { s with frames := s.frames ++ [indata], recording := false })) ∧
    (s.recording = false → callback s indata frame_count = s) ∧
    (s.recording = false → stop_recording s = (none, s)) := by
  refine ⟨?_, ?_, ?_⟩
  · intro h hdur
    simp only [callback, h, if_true]
    rw [if_pos hdur]
  · intro h
    simp [callback, h]
  · intro h
    simp [stop_recording, h]

/-- C7 witness: the failsafe trips on a concrete over-long frame. -/
theorem claim_failsafe_behavior_witness :
    callback ⟨true, [], false, [], []⟩ [1] 13230001 =
      ⟨false, [[1]], false, [], []⟩ := by
  have h := (claim_failsafe_behavior ⟨true, [], false, [], []⟩ [1] 13230001).1
    rfl (by norm_num [SAMPLE_RATE, MAX_RECORDING_SECONDS])
  rw [h]
  rfl

/-- C8: for every non-empty text, `paste_text` leaves the clipboard equal
to the snapshot it read before pasting (the empty string when the read
failed), and the restore event occurs in every run — in particular when
the keystroke simulation and its fallback both fail; for empty text,
`paste_text` is a no-op. -/
theorem claim_clipboard_restore (text : String) (w : PWorld) :
    (text ≠ "" →
      ((paste_text text w).1.clipboard =
          (if w.readFails then "" else w.clipboard) ∧
        PEv.restored (if w.readFails then "" else w.clipboard) ∈
          (paste_text text w).2)) ∧
    (text = "" → paste_text text w = (w, [])) := by
  constructor
  · intro h
    unfold paste_text
    rw [if_neg h]
    constructor
    · rfl
    · simp
  · intro h
    unfold paste_text
    rw [if_pos h]

/-- C8 witness: both simulation mechanisms fail, yet the clipboard ends up
restored to the pre-paste snapshot and the restore event is in the log. -/
theorem claim_clipboard_restore_witness :
    (paste_text "hi" ⟨"old", false, true, true⟩).1.clipboard = "old" ∧
    PEv.restored "old" ∈ (paste_text "hi" ⟨"old", false, true, true⟩).2 := by
  have h := (claim_clipboard_restore "hi" ⟨"old", false, true, true⟩).1
    (by decide)
  simpa using h

/-- C9: `get_quality_assessment` answers `('unknown', ...)` — a value its
own docstring does not list — for clipping-free RMS levels in the interval
from −25 dB up to (but excluding) −20 dB; in particular at −25 dB and at
−22 dB it returns neither the claimed `fair`/`good` nor any documented
class. -/
theorem claim_quality_hole :
    get_quality_assessment false (-25) =
      ("unknown", "Unable to assess audio quality") ∧
    get_quality_assessment false (-22) =
      ("unknown", "Unable to assess audio quality") := by
  unfold get_quality_assessment
  norm_num

/-- C10 counterexample: the head of the result queue is `('success', None)`
(an `Empty` result, not an error), yet `check_results` returns `False` —
so `False` is not returned exactly for `('error', reason)` results. -/
theorem claim_check_results_counterexample :
    (check_results ⟨false, [], true, [("success", none)], []⟩).1 = some false ∧
    (⟨false, [], true, [("success", none)], []⟩ : VoiceRecorder).result_queue =
      [("success", none)] := by
  exact ⟨rfl, rfl⟩

/-- C10 (amended): `check_results` returns `None` exactly when the result
queue is empty; on head `(status, result)` it returns
`status == 'success' and result is not None` — hence `False` both for
`('error', reason)` and for `('success', None)`; and on
`('success', "")` it returns `True` while pasting nothing and playing the
error cue. -/
theorem claim_check_results_cases (s : VoiceRecorder) :
    (s.result_queue = [] → check_results s = (none, s, [])) ∧
    (∀ status result rest, s.result_queue = (status, result) :: rest →
      (check_results s).1 = some ((status = "success") && result.isSome)) ∧
    (∀ rest, s.result_queue = ("success", some "") :: rest →
      ((check_results s).1 = some true ∧
        (∀ t, Effect.pasted t ∉ (check_results s).2.2) ∧
        Effect.sound "error" ∈ (check_results s).2.2)) := by
  refine ⟨?_, ?_, ?_⟩
  · intro h
    simp [check_results, h]
  · intro status result rest h
    simp [check_results, h]
  · intro rest h
    refine ⟨?_, ?_, ?_⟩
    · simp [check_results, h]
    · intro t
      cases hpq : s.pending_audio_queue with
      | nil => simp [check_results, h, hpq, truthy]
      | cons a ps =>
        cases htr : s.transcribing <;>
          simp [check_results, h, hpq, truthy, transcribe_async, htr]
    · cases hpq : s.pending_audio_queue with
      | nil => simp [check_results, h, hpq, truthy]
      | cons a ps =>
        cases htr : s.transcribing <;>
          simp [check_results, h, hpq, truthy, transcribe_async, htr]

/-- C10 witness: a successful-but-empty transcription returns `True` and
plays the error cue. -/
theorem claim_check_results_cases_witness :
    (check_results ⟨false, [], true, [("success", some "")], []⟩).1 = some true ∧
    Effect.sound "error" ∈
      (check_results ⟨false, [], true, [("success", some "")], []⟩).2.2 := by
  have h := (claim_check_results_cases
    ⟨false, [], true, [("success", some "")], []⟩).2.2 [] rfl
  exact ⟨h.1, h.2.2⟩

end VoiceToText
